import Mathlib

/-!
Verification of the pvpn reverse-TCP-tunnel core against its sources.

The development shallowly embeds the Rust sources:
  - src/packet.rs     : the frame codec (`Packet::write`, `Packet::read_header`,
                        the bincode standard-configuration header encoding, and
                        the `From<Error> for PacketMessage` conversion);
  - src/error.rs      : the `Error` enum;
  - src/streams.rs    : `ClientStream` (`flush_pre`, `push_data`) and
                        `TokenStreams` (`add`, `remove`, `read`, `read_packet`);
  - src/tunnel_client.rs : the dispatch decision of `read_loop`;
  - src/tunnel_server.rs : the supervisor policy of `server_main`;
  - src/bin/server/server.rs : the duplicate-id check of `client_handler`.

Machine integers are `Nat` with explicit bounds where the Rust types impose
them.  Socket effects (how many bytes a `write`/`read` call moved, which
`std::io::ErrorKind` it failed with) are passed in as explicit oracle
arguments, so every function is a pure state transformer.
-/

namespace Pvpn

/-- The seven frame kinds of `PacketMessage` in src/packet.rs, in declaration
order (bincode encodes the variant index in this order). -/
inductive PacketMessage where
  | Data
  | ConnectionRefused
  | Disconnected
  | Eof
  | ReadFailure
  | WriteFailure
  | IoFailure
deriving DecidableEq, Repr

/-- The `std::io::ErrorKind` values the sources inspect, plus a catch-all. -/
inductive IoKind where
  | connectionRefused
  | addrInUse
  | wouldBlock
  | unexpectedEof
  | other
deriving DecidableEq, Repr

/-- The `Error` enum of src/error.rs (the variants the embedded code can
produce; `decodeError` stands for a bincode decode failure propagated
through the `?` operator). -/
inductive Error where
  | readFailure
  | eof
  | connectionNotFound
  | clientNotFound
  | bufferTooSmall (max actual : Nat)
  | invalidVersion (expected actual : Nat)
  | invalidReadLen (expected actual : Nat)
  | invalidMessageType (msg : Nat)
  | ioErr (k : IoKind)
  | decodeError
deriving DecidableEq, Repr

/-- The `Packet` struct of src/packet.rs: `ver: u8`, `msg: PacketMessage`,
`addr: u64`, `data_len: u32`.  Fields are `Nat` with bounds carried by the
theorems. -/
structure Packet where
  ver : Nat
  msg : PacketMessage
  addr : Nat
  data_len : Nat
deriving DecidableEq, Repr

/-- Little-endian byte string of width `w` for `n` (bincode writes
multi-byte varint bodies little-endian). -/
def leBytes : Nat → Nat → List Nat
  | 0, _ => []
  | w + 1, n => n % 256 :: leBytes w (n / 256)

/-- Big-endian byte string of width `w` for `n` (`u32::to_be_bytes` used for
the outer header-length prefix in `Packet::write`). -/
def beBytes : Nat → Nat → List Nat
  | 0, _ => []
  | w + 1, n => beBytes w (n / 256) ++ [n % 256]

/-- Value of a big-endian byte string (`u32::from_be_bytes` in
`Packet::read_header`). -/
def beVal (bs : List Nat) : Nat :=
  bs.foldl (fun a b => 256 * a + b) 0

/-- Read `w` little-endian bytes off the front of a byte list. -/
def decLE : Nat → List Nat → Option (Nat × List Nat)
  | 0, bs => some (0, bs)
  | _ + 1, [] => none
  | w + 1, b :: bs =>
    match decLE w bs with
    | some (v, r) => some (b + 256 * v, r)
    | none => none

theorem leBytes_length (w n : Nat) : (leBytes w n).length = w := by
  induction w generalizing n with
  | zero => rfl
  | succ w ih => simp [leBytes, ih]

theorem beBytes_length (w n : Nat) : (beBytes w n).length = w := by
  induction w generalizing n with
  | zero => rfl
  | succ w ih => simp [beBytes, ih]

theorem decLE_leBytes (w : Nat) :
    ∀ n rest, n < 2 ^ (8 * w) →
      decLE w (leBytes w n ++ rest) = some (n, rest) := by
  induction w with
  | zero =>
    intro n rest h
    interval_cases n
    rfl
  | succ w ih =>
    intro n rest h
    have hdiv : n / 256 < 2 ^ (8 * w) := by
      have h2 : n < 2 ^ (8 * w) * 256 := by
        have : 8 * (w + 1) = 8 * w + 8 := by ring
        rw [this, pow_add] at h
        simpa using h
      exact Nat.div_lt_of_lt_mul (by simpa [mul_comm] using h2)
    simp only [leBytes, List.cons_append, decLE, List.append_eq]
    rw [ih (n / 256) rest hdiv]
    simp [Nat.mod_add_div]

theorem beVal_foldl (w : Nat) :
    ∀ n a, n < 2 ^ (8 * w) →
      (beBytes w n).foldl (fun x b => 256 * x + b) a = a * 2 ^ (8 * w) + n := by
  induction w with
  | zero =>
    intro n a h
    interval_cases n
    simp [beBytes]
  | succ w ih =>
    intro n a h
    have hdiv : n / 256 < 2 ^ (8 * w) := by
      have h2 : n < 2 ^ (8 * w) * 256 := by
        have he : 8 * (w + 1) = 8 * w + 8 := by ring
        rw [he, pow_add] at h
        simpa using h
      exact Nat.div_lt_of_lt_mul (by simpa [mul_comm] using h2)
    have he : 8 * (w + 1) = 8 * w + 8 := by ring
    simp only [beBytes, List.foldl_append, List.foldl_cons, List.foldl_nil,
      ih (n / 256) a hdiv]
    rw [he, pow_add]
    have := Nat.mod_add_div n 256
    ring_nf
    omega

theorem beVal_beBytes (w n : Nat) (h : n < 2 ^ (8 * w)) :
    beVal (beBytes w n) = n := by
  have := beVal_foldl w n 0 h
  simpa [beVal] using this

/-- Bincode standard-configuration variable-length encoding of an unsigned
integer (used by `bincode::encode_into_slice(self, .., config::standard())`
in `Packet::write` for the `u64` and `u32` fields and the enum
discriminant): values below 251 are one byte; larger values are a marker
byte 251/252/253 followed by the value as 2/4/8 little-endian bytes. -/
def encVarint (n : Nat) : List Nat :=
  if n < 251 then [n]
  else if n < 65536 then 251 :: leBytes 2 n
  else if n < 4294967296 then 252 :: leBytes 4 n
  else 253 :: leBytes 8 n

/-- Bincode varint decoding targeting a `u32` (markers above 252 are not a
valid `u32` encoding). -/
def decVarint32 : List Nat → Option (Nat × List Nat)
  | [] => none
  | b :: r =>
    if b < 251 then some (b, r)
    else if b = 251 then decLE 2 r
    else if b = 252 then decLE 4 r
    else none

/-- Bincode varint decoding targeting a `u64`. -/
def decVarint64 : List Nat → Option (Nat × List Nat)
  | [] => none
  | b :: r =>
    if b < 251 then some (b, r)
    else if b = 251 then decLE 2 r
    else if b = 252 then decLE 4 r
    else if b = 253 then decLE 8 r
    else none

theorem decVarint64_encVarint (n : Nat) (h : n < 2 ^ 64) :
    ∀ rest : List Nat, decVarint64 (encVarint n ++ rest) = some (n, rest) := by
  intro rest
  unfold encVarint
  by_cases h1 : n < 251
  · rw [if_pos h1]
    simp [decVarint64, h1]
  · rw [if_neg h1]
    by_cases h2 : n < 65536
    · rw [if_pos h2]
      have hle := decLE_leBytes 2 n rest (by norm_num; omega)
      simp only [List.cons_append, decVarint64]
      norm_num [hle]
    · rw [if_neg h2]
      by_cases h3 : n < 4294967296
      · rw [if_pos h3]
        have hle := decLE_leBytes 4 n rest (by norm_num; omega)
        simp only [List.cons_append, decVarint64]
        norm_num [hle]
      · rw [if_neg h3]
        have hle := decLE_leBytes 8 n rest (by norm_num; omega)
        simp only [List.cons_append, decVarint64]
        norm_num [hle]

theorem decVarint32_encVarint (n : Nat) (h : n < 2 ^ 32) :
    ∀ rest : List Nat, decVarint32 (encVarint n ++ rest) = some (n, rest) := by
  intro rest
  have h32 : n < 4294967296 := by norm_num at h; exact h
  unfold encVarint
  by_cases h1 : n < 251
  · rw [if_pos h1]
    simp [decVarint32, h1]
  · rw [if_neg h1]
    by_cases h2 : n < 65536
    · rw [if_pos h2]
      have hle := decLE_leBytes 2 n rest (by norm_num; omega)
      simp only [List.cons_append, decVarint32]
      norm_num [hle]
    · rw [if_neg h2, if_pos h32]
      have hle := decLE_leBytes 4 n rest (by norm_num; omega)
      simp only [List.cons_append, decVarint32]
      norm_num [hle]

theorem encVarint_length_le_nine (n : Nat) : (encVarint n).length ≤ 9 := by
  unfold encVarint
  by_cases h1 : n < 251
  · rw [if_pos h1]; simp
  · rw [if_neg h1]
    by_cases h2 : n < 65536
    · rw [if_pos h2]; simp [leBytes_length]
    · rw [if_neg h2]
      by_cases h3 : n < 4294967296
      · rw [if_pos h3]; simp [leBytes_length]
      · rw [if_neg h3]; simp [leBytes_length]

theorem encVarint_length_le_five (n : Nat) (h : n < 2 ^ 32) :
    (encVarint n).length ≤ 5 := by
  have h32 : n < 4294967296 := by norm_num at h; exact h
  unfold encVarint
  by_cases h1 : n < 251
  · rw [if_pos h1]; simp
  · rw [if_neg h1]
    by_cases h2 : n < 65536
    · rw [if_pos h2]; simp [leBytes_length]
    · rw [if_neg h2, if_pos h32]; simp [leBytes_length]

theorem encVarint_length_pos (n : Nat) : 1 ≤ (encVarint n).length := by
  unfold encVarint
  by_cases h1 : n < 251
  · rw [if_pos h1]; simp
  · rw [if_neg h1]
    by_cases h2 : n < 65536
    · rw [if_pos h2]; simp
    · rw [if_neg h2]
      by_cases h3 : n < 4294967296
      · rw [if_pos h3]; simp
      · rw [if_neg h3]; simp

/-- Variant index used by the derived bincode `Encode`/`Decode` for
`PacketMessage`. -/
def PacketMessage.discriminant : PacketMessage → Nat
  | .Data => 0
  | .ConnectionRefused => 1
  | .Disconnected => 2
  | .Eof => 3
  | .ReadFailure => 4
  | .WriteFailure => 5
  | .IoFailure => 6

/-- Inverse of `PacketMessage.discriminant`; an out-of-range index is a
bincode decode error. -/
def msgOfDisc : Nat → Option PacketMessage
  | 0 => some .Data
  | 1 => some .ConnectionRefused
  | 2 => some .Disconnected
  | 3 => some .Eof
  | 4 => some .ReadFailure
  | 5 => some .WriteFailure
  | 6 => some .IoFailure
  | _ => none

theorem msgOfDisc_discriminant (m : PacketMessage) :
    msgOfDisc m.discriminant = some m := by
  cases m <;> rfl

/-- Bincode standard-configuration encoding of the `Packet` struct, field by
field in declaration order: `ver: u8` as one raw byte, then the
`PacketMessage` discriminant, `addr: u64` and `data_len: u32` as varints.
This is the byte string `bincode::encode_into_slice` produces in
`Packet::write`. -/
def encodePacket (p : Packet) : List Nat :=
  [p.ver] ++ encVarint p.msg.discriminant ++ encVarint p.addr
    ++ encVarint p.data_len

/-- Bincode standard-configuration decoding of a `Packet`
(`bincode::decode_from_slice` in `Packet::read_header`), returning the
decoded packet and the unread remainder of the byte list. -/
def decodePacket : List Nat → Option (Packet × List Nat)
  | [] => none
  | v :: r1 =>
    match decVarint32 r1 with
    | none => none
    | some (d, r2) =>
      match msgOfDisc d with
      | none => none
      | some m =>
        match decVarint64 r2 with
        | none => none
        | some (a, r3) =>
          match decVarint32 r3 with
          | none => none
          | some (l, r4) => some (⟨v, m, a, l⟩, r4)

theorem decodePacket_encodePacket (p : Packet) (rest : List Nat)
    (ha : p.addr < 2 ^ 64) (hl : p.data_len < 2 ^ 32) :
    decodePacket (encodePacket p ++ rest) = some (p, rest) := by
  have hd : p.msg.discriminant < 2 ^ 32 := by
    cases p.msg <;> norm_num [PacketMessage.discriminant]
  simp only [encodePacket, List.append_assoc, List.cons_append, List.nil_append,
    decodePacket, decVarint32_encVarint _ hd, msgOfDisc_discriminant,
    decVarint64_encVarint _ ha, decVarint32_encVarint _ hl]

theorem encodePacket_length_le (p : Packet) (hl : p.data_len < 2 ^ 32) :
    (encodePacket p).length ≤ 16 := by
  have h1 : (encVarint p.msg.discriminant).length ≤ 9 :=
    encVarint_length_le_nine _
  have h2 : (encVarint p.addr).length ≤ 9 := encVarint_length_le_nine _
  have h3 : (encVarint p.data_len).length ≤ 5 := encVarint_length_le_five _ hl
  have hd : p.msg.discriminant < 251 := by
    cases p.msg <;> simp [PacketMessage.discriminant]
  have h1' : (encVarint p.msg.discriminant).length = 1 := by
    unfold encVarint
    simp [hd]
  simp only [encodePacket, List.length_append, List.length_cons,
    List.length_nil]
  omega

theorem encodePacket_length_ge (p : Packet) : 4 ≤ (encodePacket p).length := by
  have h1 := encVarint_length_pos p.msg.discriminant
  have h2 := encVarint_length_pos p.addr
  have h3 := encVarint_length_pos p.data_len
  simp only [encodePacket, List.length_append, List.length_cons,
    List.length_nil]
  omega

/-- Byte stream produced by `Packet::write` in src/packet.rs: the bincode
header is encoded into a 64-byte scratch buffer (`none` models the
`encode_into_slice` failure when it does not fit), then the stream carries
the header length as 4 big-endian bytes, the header, and the payload. -/
def Packet.writeBytes (p : Packet) (data : List Nat) : Option (List Nat) :=
  let hdr := encodePacket p
  if hdr.length ≤ 64 then some (beBytes 4 hdr.length ++ hdr ++ data)
  else none

/-- Stream decoder `Packet::read_header` in src/packet.rs: read 4 bytes and
interpret them as a big-endian `u32` header length, reject lengths above
the 64-byte buffer with `BufferTooSmall`, read that many header bytes and
bincode-decode them.  A short read is `read_exact`'s UnexpectedEof I/O
error.  Returns the packet and the bytes left unread on the stream. -/
def Packet.read_header (input : List Nat) :
    Except Error (Packet × List Nat) :=
  if input.length < 4 then .error (.ioErr .unexpectedEof)
  else
    let len := beVal (input.take 4)
    let rest := input.drop 4
    if 64 < len then .error (.bufferTooSmall 64 len)
    else if rest.length < len then .error (.ioErr .unexpectedEof)
    else
      match decodePacket (rest.take len) with
      | some (p, _) => .ok (p, rest.drop len)
      | none => .error .decodeError

theorem writeBytes_eq (p : Packet) (data : List Nat)
    (hl : p.data_len < 2 ^ 32) :
    Packet.writeBytes p data =
      some (beBytes 4 (encodePacket p).length ++ encodePacket p ++ data) := by
  have := encodePacket_length_le p hl
  simp only [Packet.writeBytes]
  rw [if_pos (by omega)]

/-- C1 — For every frame with a valid kind, any 64-bit flow id and any
payload length, encoding the header with `Packet::write` and then decoding
it with `Packet::read_header` yields a `Packet` equal to the one written
(same version, kind, flow id and payload length), with the payload bytes
left on the stream. -/
theorem write_read_header_roundtrip (ver : Nat) (msg : PacketMessage)
    (addr data_len : Nat) (data : List Nat)
    (hv : ver < 2 ^ 8) (ha : addr < 2 ^ 64) (hl : data_len < 2 ^ 32) :
    ∃ s, Packet.writeBytes ⟨ver, msg, addr, data_len⟩ data = some s ∧
      Packet.read_header s = .ok (⟨ver, msg, addr, data_len⟩, data) := by
  set p : Packet := ⟨ver, msg, addr, data_len⟩ with hp
  have hle : (encodePacket p).length ≤ 16 := encodePacket_length_le p hl
  refine ⟨beBytes 4 (encodePacket p).length ++ encodePacket p ++ data,
    writeBytes_eq p data hl, ?_⟩
  have hb4 : (beBytes 4 (encodePacket p).length).length = 4 := beBytes_length 4 _
  have hlen : (beBytes 4 (encodePacket p).length ++ encodePacket p ++ data).length
      = 4 + (encodePacket p).length + data.length := by
    simp [hb4]
    omega
  rw [Packet.read_header]
  rw [if_neg (by omega)]
  have htake : (beBytes 4 (encodePacket p).length ++ encodePacket p ++ data).take 4
      = beBytes 4 (encodePacket p).length := by
    rw [List.append_assoc, List.take_append_of_le_length (by omega),
      List.take_of_length_le (by omega)]
  have hdrop : (beBytes 4 (encodePacket p).length ++ encodePacket p ++ data).drop 4
      = encodePacket p ++ data := by
    rw [List.append_assoc, List.drop_append_of_le_length (by omega)]
    simp [hb4]
  rw [htake, hdrop, beVal_beBytes 4 _ (by norm_num; omega)]
  rw [if_neg (by omega)]
  rw [if_neg (by simp)]
  have htake2 : (encodePacket p ++ data).take (encodePacket p).length
      = encodePacket p := by
    rw [List.take_append_of_le_length (by omega), List.take_of_length_le (by omega)]
  have hdrop2 : (encodePacket p ++ data).drop (encodePacket p).length
      = data := by
    rw [List.drop_append_of_le_length (by omega)]
    simp
  rw [htake2, hdrop2]
  have hdec : decodePacket (encodePacket p) = some (p, []) := by
    have := decodePacket_encodePacket p [] ha hl
    simpa using this
  rw [hdec]

/-- C1 witness — concrete round trip: version 1, kind DATA, flow id 5,
payload length 2, payload bytes 7 and 8. -/
theorem write_read_header_roundtrip_witness :
    ∃ s, Packet.writeBytes ⟨1, PacketMessage.Data, 5, 2⟩ [7, 8] = some s ∧
      Packet.read_header s = .ok (⟨1, PacketMessage.Data, 5, 2⟩, [7, 8]) :=
  write_read_header_roundtrip 1 PacketMessage.Data 5 2 [7, 8]
    (by norm_num) (by norm_num) (by norm_num)

/-- C2 counterexample — the input stream below carries a header whose
version byte is 2, yet `Packet::read_header` decodes it successfully and
returns the packet with `ver = 2`: the claimed `InvalidVersion` rejection
does not happen.  (Outer prefix: big-endian 4 = header length; header
bytes: ver 2, kind DATA, flow id 0, payload length 0.) -/
theorem read_header_accepts_version_two :
    Packet.read_header [0, 0, 0, 4, 2, 0, 0, 0]
      = .ok (⟨2, PacketMessage.Data, 0, 0⟩, []) ∧ (2 : Nat) ≠ 1 := by
  constructor
  · rfl
  · decide

/-- C2 amended — `Packet::read_header` performs no version check at all: on
no input whatsoever does it return the `InvalidVersion` error (its only
failure modes are a short read, an oversized header length, and a bincode
decode failure), and a header with any version byte is returned as
decoded. -/
theorem read_header_never_invalid_version (input : List Nat)
    (e a : Nat) :
    Packet.read_header input ≠ .error (.invalidVersion e a) := by
  rw [Packet.read_header]
  by_cases h1 : input.length < 4
  · rw [if_pos h1]
    intro h
    exact Error.noConfusion (Except.error.inj h)
  · rw [if_neg h1]
    by_cases h2 : 64 < beVal (input.take 4)
    · rw [if_pos h2]
      intro h
      exact Error.noConfusion (Except.error.inj h)
    · rw [if_neg h2]
      by_cases h3 : (input.drop 4).length < beVal (input.take 4)
      · rw [if_pos h3]
        intro h
        exact Error.noConfusion (Except.error.inj h)
      · rw [if_neg h3]
        match hdec : decodePacket ((input.drop 4).take (beVal (input.take 4))) with
        | some (p, r) =>
          intro h
          exact Except.noConfusion h
        | none =>
          intro h
          exact Error.noConfusion (Except.error.inj h)

/-- C3 counterexample — the claim says the encoded header of any frame is
exactly 14 bytes (fixed-width big-endian fields).  The frame with version
1, kind DATA, flow id 0 and payload length 0 encodes to the 4-byte header
1, 0, 0, 0, so its full `Packet::write` stream is 8 bytes, not 4 + 14. -/
theorem encoded_header_not_fourteen_bytes :
    Packet.writeBytes ⟨1, PacketMessage.Data, 0, 0⟩ []
      = some [0, 0, 0, 4, 1, 0, 0, 0]
    ∧ (encodePacket ⟨1, PacketMessage.Data, 0, 0⟩).length ≠ 14 := by
  constructor
  · rfl
  · decide

/-- C3 amended — `Packet::write` emits the 4-byte big-endian header-length
prefix followed by the bincode standard-configuration header and the raw
payload.  The inner fields are variable-length (bincode varint, multi-byte
bodies little-endian), so the header is between 4 and 16 bytes, not a
fixed 14; only the outer length prefix is a fixed-width network-byte-order
integer, and it decodes back to the header length. -/
theorem write_layout (ver : Nat) (msg : PacketMessage)
    (addr data_len : Nat) (data : List Nat)
    (ha : addr < 2 ^ 64) (hl : data_len < 2 ^ 32) :
    ∃ hdr, hdr = encodePacket ⟨ver, msg, addr, data_len⟩ ∧
      Packet.writeBytes ⟨ver, msg, addr, data_len⟩ data
        = some (beBytes 4 hdr.length ++ hdr ++ data) ∧
      4 ≤ hdr.length ∧ hdr.length ≤ 16 ∧
      (beBytes 4 hdr.length).length = 4 ∧
      beVal (beBytes 4 hdr.length) = hdr.length := by
  set p : Packet := ⟨ver, msg, addr, data_len⟩ with hp
  have h16 : (encodePacket p).length ≤ 16 := encodePacket_length_le p hl
  have h4 : 4 ≤ (encodePacket p).length := encodePacket_length_ge p
  exact ⟨encodePacket p, rfl, writeBytes_eq p data hl, h4, h16,
    beBytes_length 4 _, beVal_beBytes 4 _ (by norm_num; omega)⟩

/-- C3 amended witness — concrete layout for version 1, kind DATA, flow id
300 (a two-byte varint with marker 251), payload length 0, payload one
byte 9. -/
theorem write_layout_witness :
    ∃ hdr, hdr = encodePacket ⟨1, PacketMessage.Data, 300, 0⟩ ∧
      Packet.writeBytes ⟨1, PacketMessage.Data, 300, 0⟩ [9]
        = some (beBytes 4 hdr.length ++ hdr ++ [9]) ∧
      4 ≤ hdr.length ∧ hdr.length ≤ 16 ∧
      (beBytes 4 hdr.length).length = 4 ∧
      beVal (beBytes 4 hdr.length) = hdr.length :=
  write_layout 1 PacketMessage.Data 300 0 [9] (by norm_num) (by norm_num)

/-- The `From<Error> for PacketMessage` conversion in src/packet.rs:
`Error::Eof` becomes `Disconnected`; an I/O error becomes
`ConnectionRefused` when its kind is `ConnectionRefused` and `IoFailure`
otherwise; every other error becomes `IoFailure`. -/
def PacketMessage.from_error : Error → PacketMessage
  | .eof => .Disconnected
  | .ioErr k =>
    if k = IoKind.connectionRefused then .ConnectionRefused else .IoFailure
  | _ => .IoFailure

/-- C7 counterexample — a clean local EOF (`Error::Eof`) is converted to a
`Disconnected` frame, not to the `Eof` frame kind the claim states. -/
theorem from_error_eof_is_disconnected :
    PacketMessage.from_error Error.eof = PacketMessage.Disconnected
    ∧ PacketMessage.Disconnected ≠ PacketMessage.Eof := by
  constructor
  · rfl
  · decide

/-- C7 amended — on a local EOF the worker sends a DISCONNECTED frame: the
error-to-message conversion maps `Error::Eof` to
`PacketMessage::Disconnected`, and no error at all converts to the EOF
frame kind (the `Eof` variant is unreachable through this conversion). -/
theorem from_error_never_eof :
    PacketMessage.from_error Error.eof = PacketMessage.Disconnected
    ∧ ∀ e : Error, PacketMessage.from_error e ≠ PacketMessage.Eof := by
  refine ⟨rfl, ?_⟩
  intro e
  cases e <;> first
    | decide
    | (simp only [PacketMessage.from_error]
       first
         | decide
         | (split <;> decide))

/-- The `ClientStream` of src/streams.rs: the buffered outbound bytes and
the connected flag (the socket itself is replaced by write oracles). -/
structure ClientStream where
  out_bytes : List Nat
  is_connected : Bool
deriving DecidableEq, Repr

/-- Outcome of the single `self.stream.write(&self.out_bytes)` call inside
`flush_pre`: `wrote n` for `Ok(n)` (n may be short), `wouldBlock` for the
`WouldBlock` error kind, `fail k` for any other I/O error. -/
inductive WriteOutcome where
  | wrote (n : Nat)
  | wouldBlock
  | fail (k : IoKind)
deriving DecidableEq, Repr

/-- `ClientStream::flush_pre` in src/streams.rs: if `out_bytes` is empty,
return Ok; otherwise call `write` once — a `WouldBlock` error counts as 0
bytes written, any other error returns early — and then unconditionally
clear `out_bytes` and return Ok. -/
def ClientStream.flush_pre (cs : ClientStream) (o : WriteOutcome) :
    ClientStream × Except Error Unit :=
  if cs.out_bytes.isEmpty then (cs, .ok ())
  else
    match o with
    | .wrote _ => ({ cs with out_bytes := [] }, .ok ())
    | .wouldBlock => ({ cs with out_bytes := [] }, .ok ())
    | .fail k => (cs, .error (.ioErr k))

/-- `ClientStream::push_data` in src/streams.rs: append to `out_bytes`. -/
def ClientStream.push_data (cs : ClientStream) (data : List Nat) :
    ClientStream :=
  { cs with out_bytes := cs.out_bytes ++ data }

/-- C4 — `flush_pre` at buffered bytes 1, 2, 3.  A short write (`Ok(1)`:
one byte of three accepted) and a not-ready socket (`WouldBlock`: zero
bytes accepted) both clear the whole buffer and return Ok, so the unsent
suffix is discarded rather than retained: the code does not loop until all
bytes are flushed. -/
theorem flush_pre_discards_unsent_bytes :
    ClientStream.flush_pre ⟨[1, 2, 3], false⟩ (.wrote 1)
      = (⟨[], false⟩, .ok ())
    ∧ ClientStream.flush_pre ⟨[1, 2, 3], false⟩ .wouldBlock
      = (⟨[], false⟩, .ok ()) := by
  constructor
  · rfl
  · rfl

/-- The `HashMap<Token, ClientStream>` of `TokenStreams`, as a lookup
function from token numbers. -/
def FlowMap := Nat → Option ClientStream

/-- `TokenStreams::add` in src/streams.rs: `self.map.insert(token, client)`
— an unconditional `HashMap::insert`, which replaces any existing entry
and returns nothing to the caller. -/
def TokenStreams.add (m : FlowMap) (t : Nat) (c : ClientStream) : FlowMap :=
  fun k => if k = t then some c else m k

/-- `TokenStreams::remove` in src/streams.rs. -/
def TokenStreams.remove (m : FlowMap) (t : Nat) : FlowMap :=
  fun k => if k = t then none else m k

/-- Outcome of the `client.stream.read(buffer)` call inside
`TokenStreams::read`: `got n` for `Ok(n)` (`n = 0` is EOF), `fail k` for
an I/O error. -/
inductive ReadOutcome where
  | got (n : Nat)
  | fail (k : IoKind)
deriving DecidableEq, Repr

/-- `TokenStreams::read` in src/streams.rs: look the token up
(`ClientNotFound` if absent), read once; on an I/O error remove the token
and return the error; on a zero-byte read remove the token and return
`Error::Eof`; otherwise return the byte count. -/
def TokenStreams.read (m : FlowMap) (t : Nat) (o : ReadOutcome) :
    FlowMap × Except Error Nat :=
  match m t with
  | none => (m, .error .clientNotFound)
  | some _ =>
    match o with
    | .fail k => (TokenStreams.remove m t, .error (.ioErr k))
    | .got 0 => (TokenStreams.remove m t, .error .eof)
    | .got (n + 1) => (m, .ok (n + 1))

/-- C8 — whenever `TokenStreams::read` returns an error for token `t` (EOF,
I/O failure, or unknown token), the flow table afterwards has no entry for
`t`, and every other token's entry is exactly what it was before. -/
theorem read_error_removes_flow (m : FlowMap) (t : Nat) (o : ReadOutcome)
    (e : Error) (herr : (TokenStreams.read m t o).2 = .error e) :
    (TokenStreams.read m t o).1 t = none
    ∧ ∀ u : Nat, u ≠ t → (TokenStreams.read m t o).1 u = m u := by
  cases hm : m t with
  | none =>
    unfold TokenStreams.read at herr ⊢
    rw [hm] at herr ⊢
    exact ⟨hm, fun u _ => rfl⟩
  | some cs =>
    unfold TokenStreams.read at herr ⊢
    rw [hm] at herr ⊢
    cases o with
    | fail k =>
      refine ⟨?_, fun u hu => ?_⟩
      · simp [TokenStreams.remove]
      · simp [TokenStreams.remove, hu]
    | got n =>
      cases n with
      | zero =>
        refine ⟨?_, fun u hu => ?_⟩
        · simp [TokenStreams.remove]
        · simp [TokenStreams.remove, hu]
      | succ n => exact Except.noConfusion herr

/-- C8 witness — a concrete table holding tokens 5 and 7; an EOF (zero-byte
read) on token 5 removes 5 and leaves 7 untouched. -/
theorem read_error_removes_flow_witness :
    (TokenStreams.read
        (fun k => if k = 5 then some ⟨[], true⟩
                  else if k = 7 then some ⟨[9], true⟩ else none)
        5 (.got 0)).1 5 = none
    ∧ (TokenStreams.read
        (fun k => if k = 5 then some ⟨[], true⟩
                  else if k = 7 then some ⟨[9], true⟩ else none)
        5 (.got 0)).1 7 = some ⟨[9], true⟩ :=
  ⟨(read_error_removes_flow
      (fun k => if k = 5 then some ⟨[], true⟩
                else if k = 7 then some ⟨[9], true⟩ else none)
      5 (.got 0) .eof rfl).1,
    (read_error_removes_flow
      (fun k => if k = 5 then some ⟨[], true⟩
                else if k = 7 then some ⟨[9], true⟩ else none)
      5 (.got 0) .eof rfl).2 7 (by decide)⟩

/-- The fixed header size referenced by `TokenStreams::read_packet`.

Modelled from the spec: `HEADER_SIZE` is imported from src/packet.rs by
src/streams.rs but is not defined in the sources of this revision.  Spec
section 4.1 gives the header fields as `u8 version`, `u8 kind`,
`u64 flow_id`, `u32 payload_len`, hence 1 + 1 + 8 + 4 = 14 bytes. -/
def HEADER_SIZE : Nat := 14

/-- Header parser referenced by `TokenStreams::read_packet`.

Modelled from the spec: `Packet::from_buffer` is called by src/streams.rs
but is not defined in the sources of this revision.  Spec section 4.1
gives the fixed-width header layout in network byte order and the decode
failures: `InvalidVersion` when the version byte is not 1 and an
invalid-kind error on an unknown kind tag (`InvalidMessageType` in
src/error.rs). -/
def Packet.from_buffer (bs : List Nat) : Except Error Packet :=
  if bs.length < HEADER_SIZE then .error (.ioErr .unexpectedEof)
  else
    let ver := bs.getD 0 0
    let kind := bs.getD 1 0
    let flow := beVal ((bs.drop 2).take 8)
    let dlen := beVal ((bs.drop 10).take 4)
    if ver = 1 then
      match msgOfDisc kind with
      | some m => .ok ⟨ver, m, flow, dlen⟩
      | none => .error (.invalidMessageType kind)
    else .error (.invalidVersion 1 ver)

/-- The `TokenStreams` state of src/streams.rs: the token map and the
buffered bytes read from the tunnel socket (`tun_input`). -/
structure TokenStreams where
  map : FlowMap
  tun_input : List Nat

/-- `TokenStreams::read_packet` in src/streams.rs: with fewer than
`HEADER_SIZE` buffered bytes return `Ok((0, Token(0)))`; parse the header;
if the full payload has not arrived return `Ok((0, token))` leaving the
buffer untouched; otherwise consume the header and — when the token is in
the map — write the payload to its stream (`wres` is the oracle for that
`write_all`: `none` is success) and consume the payload, removing the
token on a write error; when the token is unknown, return the payload
length and token without consuming the payload (the caller materializes
the flow).  Result pairs are (byte count, token). -/
def TokenStreams.read_packet (s : TokenStreams) (wres : Option IoKind) :
    TokenStreams × Except Error (Nat × Nat) :=
  if s.tun_input.length < HEADER_SIZE then (s, .ok (0, 0))
  else
    match Packet.from_buffer s.tun_input with
    | .error e => (s, .error e)
    | .ok p =>
      if HEADER_SIZE + p.data_len > s.tun_input.length then (s, .ok (0, p.addr))
      else
        let s1 : TokenStreams :=
          { s with tun_input := s.tun_input.drop HEADER_SIZE }
        match s1.map p.addr with
        | some _ =>
          let s2 : TokenStreams :=
            { s1 with tun_input := s1.tun_input.drop p.data_len }
          match wres with
          | none => (s2, .ok (p.data_len, p.addr))
          | some k =>
            ({ s2 with map := TokenStreams.remove s2.map p.addr },
              .error (.ioErr k))
        | none => (s1, .ok (p.data_len, p.addr))

/-- C10 — `TokenStreams::read_packet` returns a zero byte count in three
distinct situations: (1) fewer than `HEADER_SIZE` buffered bytes, with the
state unchanged and token 0; (2) a complete header whose payload has not
fully arrived, with the state unchanged; (3) a fully consumed frame whose
payload length is zero (here for a token present in the map, with the
header consumed).  A legal zero-length frame is therefore
indistinguishable by the returned count from "no complete frame yet". -/
theorem read_packet_zero_ambiguity :
    (∀ (s : TokenStreams) (wres : Option IoKind),
      s.tun_input.length < HEADER_SIZE →
        TokenStreams.read_packet s wres = (s, .ok (0, 0)))
    ∧ (∀ (s : TokenStreams) (wres : Option IoKind) (p : Packet),
        Packet.from_buffer s.tun_input = .ok p →
        HEADER_SIZE ≤ s.tun_input.length →
        s.tun_input.length < HEADER_SIZE + p.data_len →
          TokenStreams.read_packet s wres = (s, .ok (0, p.addr)))
    ∧ (∀ (s : TokenStreams) (p : Packet),
        Packet.from_buffer s.tun_input = .ok p →
        p.data_len = 0 →
        HEADER_SIZE ≤ s.tun_input.length →
        (s.map p.addr).isSome →
          TokenStreams.read_packet s none
            = ({ s with tun_input := s.tun_input.drop HEADER_SIZE },
                .ok (0, p.addr))) := by
  refine ⟨?_, ?_, ?_⟩
  · intro s wres h
    unfold TokenStreams.read_packet
    rw [if_pos h]
  · intro s wres p hp hge hlt
    unfold TokenStreams.read_packet
    rw [if_neg (by omega), hp]
    simp only []
    rw [if_pos (by omega)]
  · intro s p hp hz hge hsome
    unfold TokenStreams.read_packet
    rw [if_neg (by omega), hp]
    simp only []
    rw [if_neg (by omega)]
    match hm : s.map p.addr with
    | some cs =>
      simp only [hm, hz, List.drop_zero]
    | none => rw [hm] at hsome; exact absurd hsome (by simp)

/-- C10 witness — token 3 is in the map and the buffer holds exactly one
zero-payload DATA frame for it: the return value (0, 3) matches the
incomplete-frame cases; instantiated for all three situations. -/
theorem read_packet_zero_ambiguity_witness :
    TokenStreams.read_packet ⟨fun _ => none, [1, 0]⟩ none
      = (⟨fun _ => none, [1, 0]⟩, .ok (0, 0))
    ∧ TokenStreams.read_packet
        ⟨fun _ => none, [1, 0, 0, 0, 0, 0, 0, 0, 0, 3, 0, 0, 0, 2, 9]⟩ none
      = (⟨fun _ => none, [1, 0, 0, 0, 0, 0, 0, 0, 0, 3, 0, 0, 0, 2, 9]⟩,
          .ok (0, 3))
    ∧ TokenStreams.read_packet
        ⟨fun k => if k = 3 then some ⟨[], true⟩ else none,
          [1, 0, 0, 0, 0, 0, 0, 0, 0, 3, 0, 0, 0, 0]⟩ none
      = (⟨fun k => if k = 3 then some ⟨[], true⟩ else none, []⟩,
          .ok (0, 3)) := by
  refine ⟨?_, ?_, ?_⟩
  · exact read_packet_zero_ambiguity.1 ⟨fun _ => none, [1, 0]⟩ none (by decide)
  · exact read_packet_zero_ambiguity.2.1
      ⟨fun _ => none, [1, 0, 0, 0, 0, 0, 0, 0, 0, 3, 0, 0, 0, 2, 9]⟩ none
      ⟨1, PacketMessage.Data, 3, 2⟩ rfl (by decide) (by decide)
  · exact read_packet_zero_ambiguity.2.2
      ⟨fun k => if k = 3 then some ⟨[], true⟩ else none,
        [1, 0, 0, 0, 0, 0, 0, 0, 0, 3, 0, 0, 0, 0]⟩
      ⟨1, PacketMessage.Data, 3, 0⟩ rfl rfl (by decide) rfl

/-- What the Client's `read_loop` in src/tunnel_client.rs does with one
decoded tunnel packet. -/
inductive ClientDispatch where
  | materialize (t n : Nat)
  | deliver (t n : Nat)
  | fatal (e : Error)

/-- The per-packet dispatch decision of `read_loop` in
src/tunnel_client.rs: a `read_packet` error is fatal to the control link;
otherwise, if the returned token is not in the map
(`!streams.contains_token`), the Client dials the origin, pushes the
payload and registers the flow (materialize); if it is, the payload is
written to the existing flow (deliver).  The frame kind is never
consulted. -/
def read_loop_step (s : TokenStreams) (wres : Option IoKind) :
    ClientDispatch :=
  match TokenStreams.read_packet s wres with
  | (s1, .ok (n, t)) =>
    if (s1.map t).isSome then .deliver t n else .materialize t n
  | (_, .error e) => .fatal e

/-- C5 counterexample — a DISCONNECTED frame (kind 2, not DATA) for flow id
7, which is not in the flow table, is not dropped: `read_loop` dials the
origin and registers a new flow for id 7, exactly as it would for a DATA
frame. -/
theorem non_data_unknown_id_materializes :
    Packet.from_buffer [1, 2, 0, 0, 0, 0, 0, 0, 0, 7, 0, 0, 0, 0]
      = .ok ⟨1, PacketMessage.Disconnected, 7, 0⟩
    ∧ read_loop_step
        ⟨fun k => if k = 1 then some ⟨[], true⟩ else none,
          [1, 2, 0, 0, 0, 0, 0, 0, 0, 7, 0, 0, 0, 0]⟩ none
      = .materialize 7 0 := by
  constructor
  · rfl
  · rfl

/-- C5 amended — `read_packet` and `read_loop` never inspect the frame
kind: every well-formed frame whose flow id is absent from the table —
DATA or not — makes the Client dial the origin and register a new flow for
that id; no frame is dropped on the unknown-id path. -/
theorem unknown_id_always_materializes (s : TokenStreams) (p : Packet)
    (wres : Option IoKind)
    (hp : Packet.from_buffer s.tun_input = .ok p)
    (hlen : HEADER_SIZE + p.data_len ≤ s.tun_input.length)
    (hunknown : s.map p.addr = none) :
    read_loop_step s wres = .materialize p.addr p.data_len := by
  unfold read_loop_step TokenStreams.read_packet
  rw [if_neg (by omega), hp]
  simp only []
  rw [if_neg (by omega), hunknown]
  simp [hunknown]

/-- C5 amended witness — an EOF frame (kind 3, not DATA) for unknown flow
id 9 triggers materialization. -/
theorem unknown_id_always_materializes_witness :
    read_loop_step
      ⟨fun k => if k = 1 then some ⟨[], true⟩ else none,
        [1, 3, 0, 0, 0, 0, 0, 0, 0, 9, 0, 0, 0, 0]⟩ none
      = .materialize 9 0 :=
  unknown_id_always_materializes
    ⟨fun k => if k = 1 then some ⟨[], true⟩ else none,
      [1, 3, 0, 0, 0, 0, 0, 0, 0, 9, 0, 0, 0, 0]⟩
    ⟨1, PacketMessage.Eof, 9, 0⟩ none rfl (by decide) (by decide)

/-- C6 counterexample — token 5 is live in the table with one handle;
`TokenStreams::add` of a different handle under the same token is not
rejected: it silently replaces the live handle (and returns nothing the
caller could treat as fatal). -/
theorem add_silently_replaces :
    TokenStreams.add
        (fun k => if k = 5 then some ⟨[1], true⟩ else none) 5 ⟨[2], false⟩ 5
      = some ⟨[2], false⟩
    ∧ (⟨[2], false⟩ : ClientStream) ≠ ⟨[1], true⟩ := by
  constructor
  · rfl
  · decide

/-- The `ThreadCtx` entries of the tokio server's `conn_table`
(src/bin/server/server.rs), reduced to a tag. -/
structure ThreadCtx where
  tag : Nat
deriving DecidableEq, Repr

/-- The duplicate check of `client_handler` in src/bin/server/server.rs:
`conn_table.insert(addr, ctx)` replaces any existing entry and returns the
old one; the handler breaks (fatal for the whole control link) when the
returned old entry is `Some`.  The pair is (table after, duplicate
detected). -/
def client_handler_register (tbl : Nat → Option ThreadCtx) (addr : Nat)
    (ctx : ThreadCtx) : (Nat → Option ThreadCtx) × Bool :=
  ((fun k => if k = addr then some ctx else tbl k), (tbl addr).isSome)

/-- C6 amended — neither insertion path preserves the existing handle:
`TokenStreams::add` unconditionally overwrites, so after adding under a
live token the table holds the new handle; the tokio server's
`client_handler` does detect the duplicate (and treats it as fatal to the
control link), but only via `HashMap::insert`'s return value, after the
old handle has already been replaced by the new context. -/
theorem duplicate_insert_replaces (m : FlowMap) (t : Nat)
    (c c0 : ClientStream) (hm : m t = some c0)
    (tbl : Nat → Option ThreadCtx) (a : Nat) (ctx ctx0 : ThreadCtx)
    (ht : tbl a = some ctx0) :
    TokenStreams.add m t c t = some c
    ∧ (client_handler_register tbl a ctx).1 a = some ctx
    ∧ (client_handler_register tbl a ctx).2 = true := by
  refine ⟨?_, ?_, ?_⟩
  · simp [TokenStreams.add]
  · simp [client_handler_register]
  · simp [client_handler_register, ht]

/-- C6 amended witness — concrete tables: token 5 live with handle
out_bytes [1], replaced by handle out_bytes [2]; server table address 9
live with context tag 1, replaced by tag 2 while the duplicate flag
fires. -/
theorem duplicate_insert_replaces_witness :
    TokenStreams.add
        (fun k => if k = 5 then some ⟨[1], true⟩ else none) 5 ⟨[2], false⟩ 5
      = some ⟨[2], false⟩
    ∧ (client_handler_register
        (fun k => if k = 9 then some ⟨1⟩ else none) 9 ⟨2⟩).1 9 = some ⟨2⟩
    ∧ (client_handler_register
        (fun k => if k = 9 then some ⟨1⟩ else none) 9 ⟨2⟩).2 = true :=
  duplicate_insert_replaces
    (fun k => if k = 5 then some ⟨[1], true⟩ else none) 5 ⟨[2], false⟩
    ⟨[1], true⟩ rfl
    (fun k => if k = 9 then some ⟨1⟩ else none) 9 ⟨2⟩ ⟨1⟩ rfl

/-- One iteration's worth of input to the `server_main` accept loop in
src/tunnel_server.rs: either `tunnel_accept` fails with an error, or it
succeeds and `tunnel_handler` runs a session ending with the given
result. -/
inductive SessionEvent where
  | acceptErr (e : Error)
  | session (r : Except Error Unit)

/-- `server_main` in src/tunnel_server.rs over a finite trace of loop
iterations: `tunnel_accept(tunnel)?` propagates any accept failure out of
the function; a session result of Ok or `Error::Eof` is logged and the
loop re-accepts; an I/O error breaks out with the error exactly when its
kind is `AddrInUse`; every other session error is logged and the loop
re-accepts.  `some e` is the function returning `Err(e)` (non-zero
process exit); `none` means the trace ended with the loop still
accepting. -/
def server_main : List SessionEvent → Option Error
  | [] => none
  | .acceptErr e :: _ => some e
  | .session r :: rest =>
    match r with
    | .ok _ => server_main rest
    | .error .eof => server_main rest
    | .error (.ioErr k) =>
      if k = IoKind.addrInUse then some (.ioErr k) else server_main rest
    | .error _ => server_main rest

/-- C9 counterexample — `server_main` exits with an error that is not an
`AddrInUse` bind failure: `tunnel_accept` returning `Error::ClientNotFound`
(its fall-through when polling yields no tunnel event) propagates through
the `?` operator and ends the supervisor loop. -/
theorem server_main_exits_without_addrinuse :
    server_main [.acceptErr .clientNotFound] = some .clientNotFound
    ∧ Error.clientNotFound ≠ Error.ioErr IoKind.addrInUse := by
  constructor
  · rfl
  · decide

/-- C9 amended — the supervisor exit policy: any `tunnel_accept` failure
exits the loop with that error; a session ending in an I/O error of kind
`AddrInUse` exits with that error; every other session result (Ok, EOF,
other I/O errors, any other error) keeps the loop accepting. -/
theorem server_main_exit_policy :
    (∀ (e : Error) (rest : List SessionEvent),
      server_main (.acceptErr e :: rest) = some e)
    ∧ (∀ rest : List SessionEvent,
        server_main (.session (.error (.ioErr .addrInUse)) :: rest)
          = some (.ioErr .addrInUse))
    ∧ (∀ (r : Except Error Unit) (rest : List SessionEvent),
        r ≠ .error (.ioErr .addrInUse) →
          server_main (.session r :: rest) = server_main rest) := by
  refine ⟨fun e rest => rfl, fun rest => by simp [server_main], ?_⟩
  intro r rest hr
  cases r with
  | ok v => rfl
  | error e =>
    cases e with
    | eof => rfl
    | ioErr k =>
      have hk : k ≠ IoKind.addrInUse := by
        intro hkk
        exact hr (by rw [hkk])
      show (if k = IoKind.addrInUse then some (Error.ioErr k)
        else server_main rest) = server_main rest
      rw [if_neg hk]
    | readFailure => rfl
    | connectionNotFound => rfl
    | clientNotFound => rfl
    | bufferTooSmall max actual => rfl
    | invalidVersion expected actual => rfl
    | invalidReadLen expected actual => rfl
    | invalidMessageType msg => rfl
    | decodeError => rfl

/-- C9 amended witness — a session ending in `Error::Eof` keeps the loop
accepting (trace continues, ending on an AddrInUse session that exits). -/
theorem server_main_exit_policy_witness :
    server_main [.session (.error .eof),
        .session (.error (.ioErr .addrInUse))]
      = some (.ioErr .addrInUse) := by
  rw [server_main_exit_policy.2.2 (.error .eof) _
    (fun h => Error.noConfusion (Except.error.inj h))]
  exact server_main_exit_policy.2.1 []

end Pvpn
